import Mathlib

/-!
Verification development for the ibm-vscode-4-z provisioning scripts.

The Python sources under scripts/ are shallowly embedded here:
directories become lists of `Entry` values (files carry a name, a content
string and an mtime; subdirectories carry a name, an mtime and their
children), and each Python function that the specification talks about is
translated into an executable Lean definition of the same name.  Process
exits and Python exceptions become `Except` results.
-/

set_option autoImplicit false

namespace VSCode4z

/-- One entry of a directory: either a regular file (name, text content,
modification time) or a subdirectory (name, modification time, children).
Modification times are abstract naturals, as only their ordering matters. -/
inductive Entry : Type where
  | file (name : String) (content : String) (mtime : Nat)
  | dir (name : String) (mtime : Nat) (children : List Entry)
deriving Repr

mutual

/-- Structural decidable equality for `Entry` (the nested `List Entry`
forces a hand-written mutual recursion). -/
def Entry.beq : Entry → Entry → Bool
  | .file n c m, .file n' c' m' => n = n' && c = c' && m = m'
  | .dir n m cs, .dir n' m' cs' => n = n' && m = m' && Entry.beqList cs cs'
  | _, _ => false

/-- Pointwise `Entry.beq` on lists of entries. -/
def Entry.beqList : List Entry → List Entry → Bool
  | [], [] => true
  | e :: es, f :: fs => Entry.beq e f && Entry.beqList es fs
  | _, _ => false

end

mutual

theorem Entry.beq_refl : ∀ e : Entry, Entry.beq e e = true
  | .file _ _ _ => by simp [Entry.beq]
  | .dir _ _ cs => by simp [Entry.beq, Entry.beqList_refl cs]

theorem Entry.beqList_refl : ∀ es : List Entry, Entry.beqList es es = true
  | [] => rfl
  | e :: es => by simp [Entry.beqList, Entry.beq_refl e, Entry.beqList_refl es]

end

mutual

theorem Entry.eq_of_beq : ∀ {e f : Entry}, Entry.beq e f = true → e = f
  | .file _ _ _, .file _ _ _, h => by
      simp only [Entry.beq, Bool.and_eq_true, decide_eq_true_eq] at h
      simp [h.1.1, h.1.2, h.2]
  | .dir _ _ _, .dir _ _ _, h => by
      simp only [Entry.beq, Bool.and_eq_true, decide_eq_true_eq] at h
      have := Entry.eqList_of_beqList h.2
      simp [h.1.1, h.1.2, this]
  | .file _ _ _, .dir _ _ _, h => by simp [Entry.beq] at h
  | .dir _ _ _, .file _ _ _, h => by simp [Entry.beq] at h

theorem Entry.eqList_of_beqList : ∀ {es fs : List Entry},
    Entry.beqList es fs = true → es = fs
  | [], [], _ => rfl
  | e :: es, f :: fs, h => by
      simp only [Entry.beqList, Bool.and_eq_true] at h
      rw [Entry.eq_of_beq h.1, Entry.eqList_of_beqList h.2]
  | [], _ :: _, h => by simp [Entry.beqList] at h
  | _ :: _, [], h => by simp [Entry.beqList] at h

end

instance : DecidableEq Entry := fun e f =>
  if h : Entry.beq e f = true then .isTrue (Entry.eq_of_beq h)
  else .isFalse (fun hef => h (hef ▸ Entry.beq_refl e))

/-- The name of an entry (`os.listdir` yields these). -/
def Entry.name : Entry → String
  | .file n _ _ => n
  | .dir n _ _ => n

/-- The modification time of an entry (`os.path.getmtime`). -/
def Entry.mtime : Entry → Nat
  | .file _ _ m => m
  | .dir _ m _ => m

/-- `os.path.isfile` on an entry. -/
def Entry.isFile : Entry → Bool
  | .file _ _ _ => true
  | .dir _ _ _ => false

@[simp] theorem Entry.name_file (n c : String) (m : Nat) : (Entry.file n c m).name = n := rfl

@[simp] theorem Entry.name_dir (n : String) (m : Nat) (cs : List Entry) :
    (Entry.dir n m cs).name = n := rfl

@[simp] theorem Entry.mtime_file (n c : String) (m : Nat) : (Entry.file n c m).mtime = m := rfl

@[simp] theorem Entry.mtime_dir (n : String) (m : Nat) (cs : List Entry) :
    (Entry.dir n m cs).mtime = m := rfl

@[simp] theorem Entry.isFile_file (n c : String) (m : Nat) :
    (Entry.file n c m).isFile = true := rfl

@[simp] theorem Entry.isFile_dir (n : String) (m : Nat) (cs : List Entry) :
    (Entry.dir n m cs).isFile = false := rfl

/-- Python `str.lower` restricted to ASCII names, as a character-list map. -/
def pyLower (s : String) : String := String.mk (s.data.map Char.toLower)

/-- Python `str.endswith`. -/
def pyEndsWith (s suffix : String) : Bool := suffix.data.isSuffixOf s.data

/-- Fuel-driven core of `fnmatch`-style glob matching over characters: a
star matches any run of characters, a question mark any single character,
everything else is matched literally (character classes are not used by
this repository's patterns).  Each step shortens the pattern or the
string, so fuel `pat.length + s.length + 1` never runs out. -/
def globMatchFuel : Nat → List Char → List Char → Bool
  | 0, _, _ => false
  | _+1, [], [] => true
  | _+1, [], _ :: _ => false
  | f+1, '*' :: ps, [] => globMatchFuel f ps []
  | f+1, '*' :: ps, c :: cs => globMatchFuel f ps (c :: cs) || globMatchFuel f ('*' :: ps) cs
  | _+1, '?' :: _, [] => false
  | f+1, '?' :: ps, _ :: cs => globMatchFuel f ps cs
  | _+1, _ :: _, [] => false
  | f+1, p :: ps, c :: cs => (p = c) && globMatchFuel f ps cs

/-- `fnmatch` matching with sufficient fuel. -/
def globMatchCore (pat s : List Char) : Bool :=
  globMatchFuel (pat.length + s.length + 1) pat s

/-- `glob.glob` name matching: like `fnmatch`, except that a wildcard at
the start of the pattern does not match a name that begins with a dot. -/
def globMatchName (pat name : List Char) : Bool :=
  match pat, name with
  | p :: _, '.' :: _ =>
      if p = '*' || p = '?' then false else globMatchCore pat name
  | _, _ => globMatchCore pat name

/-- Entries of a directory listing whose names match a glob pattern, in
enumeration order — the model of `glob.glob(os.path.join(directory, pattern))`
restricted to a single directory level. -/
def globEntries (entries : List Entry) (pattern : String) : List Entry :=
  entries.filter (fun e => globMatchName pattern.data e.name.data)

/-- First entry with the greatest mtime, or `none` on the empty list.
This is what `list.sort(key=mtime, reverse=True)` followed by taking the
head produces: Python's sort is stable, so ties keep enumeration order. -/
def pickMaxMtime : List Entry → Option Entry
  | [] => none
  | e :: rest => some (rest.foldl (fun acc x => if acc.mtime < x.mtime then x else acc) e)

/-- `path_utils.get_latest_file(directory, pattern)`: glob the directory for
the pattern, sort matches by modification time newest first, return the
basename of the newest match, or the empty string when nothing matches.
An absent directory is `none`: `glob` finds nothing inside it. -/
def get_latest_file (directory : Option (List Entry)) (pattern : String) : String :=
  let matched := globEntries (directory.getD []) pattern
  match pickMaxMtime matched with
  | none => ""
  | some e => e.name

/-- `file_utils.cleanup_directory_except(target_dir, except_pattern)` on an
existing directory: iterate over the listing; a file is removed unless its
lowercased name ends with the pattern (the pattern itself is used verbatim);
a subdirectory is always removed wholesale.  Deletions are modelled as
succeeding. -/
def cleanup_directory_except (entries : List Entry) (except_pattern : String) : List Entry :=
  entries.filter (fun e =>
    match e with
    | .file n _ _ => pyEndsWith (pyLower n) except_pattern
    | .dir _ _ _ => false)

theorem foldlMax_spec (l : List Entry) (acc : Entry) :
    (l.foldl (fun acc x => if acc.mtime < x.mtime then x else acc) acc ∈ l ∨
      l.foldl (fun acc x => if acc.mtime < x.mtime then x else acc) acc = acc) ∧
    acc.mtime ≤ (l.foldl (fun acc x => if acc.mtime < x.mtime then x else acc) acc).mtime ∧
    ∀ x ∈ l, x.mtime ≤ (l.foldl (fun acc x => if acc.mtime < x.mtime then x else acc) acc).mtime := by
  induction l generalizing acc with
  | nil => simp
  | cons b bs ih =>
    simp only [List.foldl_cons]
    by_cases hb : acc.mtime < b.mtime
    · simp only [if_pos hb]
      rcases ih b with ⟨hmem, hacc, hall⟩
      refine ⟨?_, le_trans (le_of_lt hb) hacc, ?_⟩
      · rcases hmem with hm | hm
        · exact Or.inl (List.mem_cons_of_mem _ hm)
        · exact Or.inl (by simp [hm])
      · intro x hx
        rcases List.mem_cons.mp hx with hx | hx
        · exact hx ▸ hacc
        · exact hall x hx
    · simp only [if_neg hb]
      rcases ih acc with ⟨hmem, hacc, hall⟩
      refine ⟨?_, hacc, ?_⟩
      · rcases hmem with hm | hm
        · exact Or.inl (List.mem_cons_of_mem _ hm)
        · exact Or.inr hm
      · intro x hx
        rcases List.mem_cons.mp hx with hx | hx
        · subst hx
          exact le_trans (le_of_not_lt hb) hacc
        · exact hall x hx

theorem pickMaxMtime_mem_and_max (es : List Entry) (e : Entry)
    (h : pickMaxMtime es = some e) : e ∈ es ∧ ∀ x ∈ es, x.mtime ≤ e.mtime := by
  match es with
  | [] => simp [pickMaxMtime] at h
  | a :: rest =>
    simp only [pickMaxMtime, Option.some.injEq] at h
    subst h
    rcases foldlMax_spec rest a with ⟨hmem, hacc, hall⟩
    constructor
    · rcases hmem with hm | hm
      · exact List.mem_cons_of_mem _ hm
      · rw [hm]; exact List.mem_cons_self a rest
    · intro x hx
      rcases List.mem_cons.mp hx with hx | hx
      · exact hx ▸ hacc
      · exact hall x hx

/-- Claim C9: `get_latest_file` returns the empty string when no entry
matches the pattern (also for an empty or absent directory); with exactly
one match it returns that entry's basename; with several matches it
returns the basename of a match with the greatest modification time. -/
theorem C9_get_latest_file_spec (directory : Option (List Entry)) (pattern : String) :
    (globEntries (directory.getD []) pattern = [] →
        get_latest_file directory pattern = "") ∧
    (∀ e, globEntries (directory.getD []) pattern = [e] →
        get_latest_file directory pattern = e.name) ∧
    (globEntries (directory.getD []) pattern ≠ [] →
        ∃ e ∈ globEntries (directory.getD []) pattern,
          get_latest_file directory pattern = e.name ∧
          ∀ x ∈ globEntries (directory.getD []) pattern, x.mtime ≤ e.mtime) := by
  refine ⟨?_, ?_, ?_⟩
  · intro h
    simp [get_latest_file, h, pickMaxMtime]
  · intro e h
    simp [get_latest_file, h, pickMaxMtime]
  · intro h
    rcases hm : pickMaxMtime (globEntries (directory.getD []) pattern) with _ | e
    · rcases hl : globEntries (directory.getD []) pattern with _ | ⟨a, rest⟩
      · exact absurd hl h
      · rw [hl] at hm; simp [pickMaxMtime] at hm
    · rcases pickMaxMtime_mem_and_max _ _ hm with ⟨hmem, hmax⟩
      exact ⟨e, hmem, by simp [get_latest_file, hm], hmax⟩

/-- Witness for C9 at concrete inputs: an absent directory yields the empty
string, and a directory with a single matching file yields its basename. -/
theorem C9_get_latest_file_spec_witness :
    get_latest_file none "*.zip" = "" ∧
    get_latest_file (some [.file "a.zip" "" 3]) "*.zip" = "a.zip" := by
  constructor
  · exact (C9_get_latest_file_spec none "*.zip").1 rfl
  · exact (C9_get_latest_file_spec (some [.file "a.zip" "" 3]) "*.zip").2.1
      (.file "a.zip" "" 3) rfl

/-- Claim C2 is false as stated: with suffix ".zip", the file "A.ZIP" does
not have a name ending with the suffix, yet `cleanup_directory_except`
keeps it (the source lowercases the entry name before comparing). -/
theorem C2_counterexample :
    cleanup_directory_except [.file "A.ZIP" "" 0] ".zip" = [.file "A.ZIP" "" 0] ∧
    pyEndsWith "A.ZIP" ".zip" = false := by
  constructor
  · decide
  · decide

/-- Claim C2 (amended): `cleanup_directory_except` leaves in the directory
exactly the top-level files whose lowercased name ends with the verbatim
suffix; every other top-level file and every top-level subdirectory
(regardless of its contents) is removed. -/
theorem C2_cleanup_directory_except_spec (entries : List Entry) (suffix : String)
    (e : Entry) :
    e ∈ cleanup_directory_except entries suffix ↔
      e ∈ entries ∧ e.isFile = true ∧ pyEndsWith (pyLower e.name) suffix = true := by
  cases e <;>
    simp [cleanup_directory_except, List.mem_filter, Entry.isFile, Entry.name]

/-- A tools-manifest entry as used by `install.py`: destination directory,
filename pattern and archive type. -/
structure ToolInfo where
  dir : String
  pattern : String
  type : String
deriving DecidableEq, Repr

/-- The glob pattern `install.py` builds for one tool:
`f"{info['pattern']}.{info['type']}"`. -/
def toolSearchPattern (info : ToolInfo) : String := info.pattern ++ "." ++ info.type

/-- `install.phase1_check_tools`: walk the manifest in order; look up the
latest archive for each tool; `sys.exit(1)` (modelled as `Except.error 1`)
at the first tool whose lookup is empty, otherwise return the per-tool
archive filenames.  The filesystem is a map from a tool directory to its
listing (`none` for an absent directory). -/
def phase1_check_tools :
    List (String × ToolInfo) → (String → Option (List Entry)) →
      Except Nat (List (String × String))
  | [], _ => .ok []
  | (t, info) :: rest, fs =>
      let tf := get_latest_file (fs info.dir) (toolSearchPattern info)
      if tf = "" then .error 1
      else (phase1_check_tools rest fs).map (fun l => (t, tf) :: l)

/-- Archive filename recorded for a tool by phase 1. -/
def lookupToolFile (toolFiles : List (String × String)) (tool : String) : String :=
  ((toolFiles.find? (fun p => p.1 = tool)).map Prod.snd).getD ""

/-- The extraction actions of `install.phase2_extract_packages`, as the
list of (tool, archive) pairs it processes: first every zip-type tool,
then every self-extracting exe-type tool, in manifest order. -/
def phase2_extract_events (tools : List (String × ToolInfo))
    (toolFiles : List (String × String)) : List (String × String) :=
  ((tools.filter (fun p => p.2.type = "zip")).map
      (fun p => (p.1, lookupToolFile toolFiles p.1))) ++
  ((tools.filter (fun p => p.2.type = "exe")).map
      (fun p => (p.1, lookupToolFile toolFiles p.1)))

/-- `install.main` up to phase 2: phase 2's extractions happen only if
phase 1 returned normally. -/
def install_phase12 (tools : List (String × ToolInfo))
    (fs : String → Option (List Entry)) : Except Nat (List (String × String)) :=
  (phase1_check_tools tools fs).map (phase2_extract_events tools)

/-- Claim C1: if any declared tool's latest-by-mtime archive lookup is
empty, the install run exits with status 1 before any extraction is
attempted for any tool; if every lookup succeeds, phase 1 returns the
per-tool archive filenames. -/
theorem C1_phase1_gates_extraction (tools : List (String × ToolInfo))
    (fs : String → Option (List Entry)) :
    ((∃ p ∈ tools, get_latest_file (fs p.2.dir) (toolSearchPattern p.2) = "") →
        install_phase12 tools fs = .error 1) ∧
    ((∀ p ∈ tools, get_latest_file (fs p.2.dir) (toolSearchPattern p.2) ≠ "") →
        phase1_check_tools tools fs =
          .ok (tools.map
            (fun p => (p.1, get_latest_file (fs p.2.dir) (toolSearchPattern p.2))))) := by
  constructor
  · intro h
    suffices herr : phase1_check_tools tools fs = .error 1 by
      simp [install_phase12, herr, Except.map]
    induction tools with
    | nil => simp at h
    | cons p rest ih =>
      obtain ⟨q, hq, hempty⟩ := h
      obtain ⟨t, info⟩ := p
      rcases List.mem_cons.mp hq with hq | hq
      · subst hq
        simp [phase1_check_tools, hempty]
      · by_cases htf : get_latest_file (fs info.dir) (toolSearchPattern info) = ""
        · simp [phase1_check_tools, htf]
        · have := ih ⟨q, hq, hempty⟩
          simp [phase1_check_tools, htf, this, Except.map]
  · intro h
    induction tools with
    | nil => simp [phase1_check_tools]
    | cons p rest ih =>
      obtain ⟨t, info⟩ := p
      have hne : get_latest_file (fs info.dir) (toolSearchPattern info) ≠ "" :=
        h (t, info) (List.mem_cons_self _ _)
      have hrest := ih (fun q hq => h q (List.mem_cons_of_mem _ hq))
      simp [phase1_check_tools, hne, hrest, Except.map]

/-- Witness for C1: a one-tool manifest whose directory has no matching
archive makes the run exit 1; with the archive present, phase 1 returns
its filename. -/
theorem C1_phase1_gates_extraction_witness :
    install_phase12 [("vscode", ⟨"vscode", "VSCode*", "zip"⟩)] (fun _ => some []) =
      .error 1 ∧
    phase1_check_tools [("vscode", ⟨"vscode", "VSCode*", "zip"⟩)]
        (fun _ => some [.file "VSCode-1.85.zip" "" 7]) =
      .ok [("vscode", "VSCode-1.85.zip")] := by
  constructor
  · exact (C1_phase1_gates_extraction _ _).1
      ⟨("vscode", ⟨"vscode", "VSCode*", "zip"⟩), by simp, by decide⟩
  · exact (C1_phase1_gates_extraction _ _).2
      (by intro p hp; simp at hp; subst hp; decide)

/-- The live configuration filename used by `workspace.py` and
`uninstall.py`. -/
def configName : String := "zowe.config.json"

/-- The glob pattern `uninstall.restore_backup` searches for. -/
def backupGlobPattern : String := "zowe.config.backup_*.json"

/-- The backup filename `workspace.py` builds from a timestamp. -/
def backupFileName (ts : String) : String := "zowe.config.backup_" ++ ts ++ ".json"

/-- Python's `<` on strings: strict lexicographic comparison by code
point. -/
def strLt : List Char → List Char → Bool
  | [], [] => false
  | [], _ :: _ => true
  | _ :: _, [] => false
  | c :: cs, d :: ds => if c < d then true else if d < c then false else strLt cs ds

/-- First entry with the greatest name, or `none` on the empty list: what
`backup_files.sort(reverse=True)` followed by `backup_files[0]` yields
(names in one directory are unique, so ties do not arise). -/
def pickMaxName : List Entry → Option Entry
  | [] => none
  | e :: rest =>
      some (rest.foldl (fun acc x => if strLt acc.name.data x.name.data then x else acc) e)

/-- In-place overwrite of one named file, used to model `shutil.copy` and
the whole-file rewrite of `replace_in_file`. -/
def overwriteFn (dst content : String) (now : Nat) (e : Entry) : Entry :=
  if e.name = dst && e.isFile then .file dst content now else e

/-- `shutil.copy(src, dst)` at the directory level, with `content` the
source's text: overwrite the destination file in place if one exists,
otherwise create it at the end of the listing; the destination's mtime
becomes the current time `now`. -/
def shutilCopyInto (entries : List Entry) (dst content : String) (now : Nat) : List Entry :=
  if entries.any (fun e => e.name = dst && e.isFile) then
    entries.map (overwriteFn dst content now)
  else entries ++ [.file dst content now]

/-- `os.remove(name)` on a directory listing (names are unique). -/
def pyListRemove (entries : List Entry) (name : String) : List Entry :=
  entries.filter (fun e => e.name ≠ name)

/-- `uninstall.restore_backup(workspace_dir)`: glob for backup files; if
none, return unchanged; otherwise copy the backup with the greatest name
over the live config and delete that backup.  A directory matching the
pattern would make `shutil.copy` raise, which the source catches and
logs, leaving the listing unchanged. -/
def restore_backup (entries : List Entry) (now : Nat) : List Entry :=
  match pickMaxName (globEntries entries backupGlobPattern) with
  | none => entries
  | some (.file n c _) => pyListRemove (shutilCopyInto entries configName c now) n
  | some (.dir _ _ _) => entries

/-- The backup step of `workspace.main`: exit 1 if the live config does
not exist, otherwise copy it to a timestamped backup file. -/
def workspace_backup_config (entries : List Entry) (ts : String) (now : Nat) :
    Except Nat (List Entry) :=
  match entries.find? (fun e => e.name = configName && e.isFile) with
  | some (.file _ c _) => .ok (shutilCopyInto entries (backupFileName ts) c now)
  | _ => .error 1

/-- Modelled from the spec: the tools manifest `tools.yml` consumed by
`uninstall.main` is not among the sources; per the spec the uninstall flow
cleans each declared tool directory (keeping only the tool's archive
suffix) and then restores the newest configuration backup in the separate
workspace configuration directory, which the per-tool cleanup does not
touch. -/
def uninstall_main (toolDirs : List (List Entry × String))
    (workspaceDir : List Entry) (now : Nat) : List (List Entry) × List Entry :=
  (toolDirs.map (fun p => cleanup_directory_except p.1 p.2),
    restore_backup workspaceDir now)

/-- Claim C10: with no file matching the backup pattern in the workspace
directory, `restore_backup` returns without raising and leaves every file,
including a present or absent live config, unchanged. -/
theorem C10_restore_backup_no_backups (entries : List Entry) (now : Nat)
    (h : globEntries entries backupGlobPattern = []) :
    restore_backup entries now = entries := by
  simp [restore_backup, h, pickMaxName]

/-- Witness for C10: a directory holding only the live config is returned
unchanged. -/
theorem C10_restore_backup_no_backups_witness :
    restore_backup [.file "zowe.config.json" "live" 0] 7 =
      [.file "zowe.config.json" "live" 0] :=
  C10_restore_backup_no_backups [.file "zowe.config.json" "live" 0] 7 (by decide)

/-- The workspace directory of end-to-end scenario 4: one live config and
two timestamped backups. -/
def scenario4Dir : List Entry :=
  [.file "zowe.config.json" "LIVE" 0,
   .file "zowe.config.backup_20240101_100000.json" "A" 1,
   .file "zowe.config.backup_20240102_090000.json" "B" 2]

/-- Claim C7 is false as stated: running uninstall on a workspace holding
the 20240101 and 20240102 backups restores the 20240102 backup but leaves
the 20240101 backup in place — one backup remains, not zero. -/
theorem C7_counterexample :
    globEntries (uninstall_main [] scenario4Dir 9).2 backupGlobPattern =
      [.file "zowe.config.backup_20240101_100000.json" "A" 1] ∧
    globEntries (uninstall_main [] scenario4Dir 9).2 backupGlobPattern ≠ [] := by
  constructor
  · decide
  · decide

/-- Claim C7 (amended): uninstall with the 20240101 and 20240102 backups
present restores the 20240102 backup's content as the live config and
deletes only that backup, leaving exactly one live config and the one
earlier (20240101) backup. -/
theorem C7_uninstall_two_backups :
    (uninstall_main [] scenario4Dir 9).2 =
      [.file "zowe.config.json" "B" 9,
       .file "zowe.config.backup_20240101_100000.json" "A" 1] := by
  decide

theorem overwriteFn_name (dst c : String) (now : Nat) (e : Entry) :
    (overwriteFn dst c now e).name = e.name := by
  unfold overwriteFn
  split
  next h =>
    simp only [Bool.and_eq_true, decide_eq_true_eq] at h
    rw [← h.1]
    rfl
  next => rfl

theorem overwriteFn_id (dst c : String) (now : Nat) (e : Entry) (h : e.name ≠ dst) :
    overwriteFn dst c now e = e := by
  unfold overwriteFn
  rw [if_neg]
  simp [h]

theorem strLt_irrefl (s : List Char) : strLt s s = false := by
  induction s with
  | nil => rfl
  | cons c cs ih => simp [strLt, ih]

theorem strLt_ne {a b : List Char} (h : strLt a b = true) : a ≠ b := by
  intro hab
  rw [hab, strLt_irrefl] at h
  exact Bool.false_ne_true h

theorem globEntries_map_overwrite (pat : String) (l : List Entry)
    (dst c : String) (now : Nat) :
    globEntries (l.map (overwriteFn dst c now)) pat =
      (globEntries l pat).map (overwriteFn dst c now) := by
  induction l with
  | nil => rfl
  | cons a l ih =>
    by_cases h : globMatchName pat.data a.name.data = true
    · simp [globEntries, List.filter_cons, List.map_cons, overwriteFn_name, h] at ih ⊢
      exact ih
    · simp only [Bool.not_eq_true] at h
      simp [globEntries, List.filter_cons, List.map_cons, overwriteFn_name, h] at ih ⊢
      exact ih

theorem filter_name_map_overwrite (s : String) (l : List Entry)
    (dst c : String) (now : Nat) :
    (l.map (overwriteFn dst c now)).filter (fun e => e.name = s) =
      (l.filter (fun e => e.name = s)).map (overwriteFn dst c now) := by
  induction l with
  | nil => rfl
  | cons a l ih =>
    by_cases h : a.name = s
    · simp [List.filter_cons, List.map_cons, overwriteFn_name, h, ih]
    · simp [List.filter_cons, List.map_cons, overwriteFn_name, h, ih]

theorem map_overwrite_id (l : List Entry) (dst c : String) (now : Nat)
    (h : ∀ e ∈ l, e.name ≠ dst) : l.map (overwriteFn dst c now) = l := by
  induction l with
  | nil => rfl
  | cons a l ih =>
    rw [List.map_cons, overwriteFn_id _ _ _ _ (h a (List.mem_cons_self _ _)),
      ih (fun e he => h e (List.mem_cons_of_mem _ he))]

theorem foldlMaxName_all_lt (l : List Entry) (a acc : Entry)
    (hacc : strLt acc.name.data a.name.data = true)
    (hl : ∀ x ∈ l, strLt x.name.data a.name.data = true) :
    (l ++ [a]).foldl (fun acc x => if strLt acc.name.data x.name.data then x else acc) acc
      = a := by
  induction l generalizing acc with
  | nil => simp [hacc]
  | cons b bs ih =>
    simp only [List.cons_append, List.foldl_cons]
    by_cases hb : strLt acc.name.data b.name.data = true
    · rw [if_pos hb]
      exact ih b (hl b (List.mem_cons_self _ _)) (fun x hx => hl x (List.mem_cons_of_mem _ hx))
    · rw [if_neg (by simp [hb])]
      exact ih acc hacc (fun x hx => hl x (List.mem_cons_of_mem _ hx))

theorem pickMaxName_append_top (l : List Entry) (a : Entry)
    (hl : ∀ x ∈ l, strLt x.name.data a.name.data = true) :
    pickMaxName (l ++ [a]) = some a := by
  cases l with
  | nil => simp [pickMaxName]
  | cons b bs =>
    simp only [List.cons_append, pickMaxName, Option.some.injEq]
    exact foldlMaxName_all_lt bs a b (hl b (List.mem_cons_self _ _))
      (fun x hx => hl x (List.mem_cons_of_mem _ hx))

theorem find_config_of_filter (E : List Entry) (C : String) (cm : Nat)
    (hconf : E.filter (fun e => e.name = configName) = [.file configName C cm]) :
    E.find? (fun e => e.name = configName && e.isFile) = some (.file configName C cm) := by
  induction E with
  | nil => simp at hconf
  | cons a l ih =>
    by_cases ha : a.name = configName
    · rw [List.filter_cons_of_pos (by simp [ha])] at hconf
      simp only [List.cons.injEq] at hconf
      rw [hconf.1]
      simp [List.find?, Entry.isFile, Entry.name]
    · rw [List.filter_cons_of_neg (by simp [ha])] at hconf
      rw [List.find?_cons_of_neg _ (by simp [ha])]
      exact ih hconf

theorem matched_name_ne_config (n : String)
    (h : globMatchName backupGlobPattern.data n.data = true) : n ≠ configName := by
  intro hn
  subst hn
  revert h
  decide

theorem backupFileName_ne_config (ts : String) : backupFileName ts ≠ configName := by
  intro h
  have hlen := congrArg (fun s => s.data.length) h
  simp only [backupFileName, configName, String.data_append, List.length_append] at hlen
  simp at hlen
  omega

theorem filter_swap (p q : Entry → Bool) (l : List Entry) :
    (l.filter p).filter q = (l.filter q).filter p := by
  rw [List.filter_filter, List.filter_filter]
  exact List.filter_congr (fun a _ => Bool.and_comm _ _)

theorem globEntries_append (l1 l2 : List Entry) (pat : String) :
    globEntries (l1 ++ l2) pat = globEntries l1 pat ++ globEntries l2 pat :=
  List.filter_append l1 l2

/-- Claim C3: backing up the live config (content `C`) under a timestamped
name above every existing backup, then rewriting the live config (the
templating, modelled as an overwrite with content `C'`), then running
`restore_backup`, leaves the live config with content `C`, removes the new
backup, keeps every earlier backup, and leaves exactly one live config and
exactly the earlier backups. -/
theorem C3_backup_restore_roundtrip (E : List Entry) (C C' ts : String)
    (cm now1 now2 now3 : Nat)
    (hconf : E.filter (fun e => e.name = configName) = [.file configName C cm])
    (hmax : ∀ e ∈ E, globMatchName backupGlobPattern.data e.name.data = true →
      strLt e.name.data (backupFileName ts).data = true)
    (hnew : ∀ e ∈ E, e.name ≠ backupFileName ts)
    (hts : globMatchName backupGlobPattern.data (backupFileName ts).data = true) :
    workspace_backup_config E ts now1 =
      .ok (E ++ [Entry.file (backupFileName ts) C now1]) ∧
    (restore_backup
        (shutilCopyInto (E ++ [Entry.file (backupFileName ts) C now1]) configName C' now2)
        now3).filter (fun e => e.name = configName) = [.file configName C now3] ∧
    (∀ e ∈ restore_backup
        (shutilCopyInto (E ++ [Entry.file (backupFileName ts) C now1]) configName C' now2)
        now3, e.name ≠ backupFileName ts) ∧
    (∀ e ∈ E, globMatchName backupGlobPattern.data e.name.data = true →
      e ∈ restore_backup
        (shutilCopyInto (E ++ [Entry.file (backupFileName ts) C now1]) configName C' now2)
        now3) ∧
    globEntries
        (restore_backup
          (shutilCopyInto (E ++ [Entry.file (backupFileName ts) C now1]) configName C' now2)
          now3) backupGlobPattern = globEntries E backupGlobPattern := by
  have hnc : backupFileName ts ≠ configName := backupFileName_ne_config ts
  have hc1E : (Entry.file configName C cm) ∈ E := by
    have h : (Entry.file configName C cm) ∈ E.filter (fun e => e.name = configName) := by
      rw [hconf]; exact List.mem_singleton.mpr rfl
    exact List.mem_of_mem_filter h
  -- the backup copy appends a fresh backup file
  have hb : workspace_backup_config E ts now1 =
      .ok (E ++ [Entry.file (backupFileName ts) C now1]) := by
    unfold workspace_backup_config
    rw [find_config_of_filter E C cm hconf]
    have hany : (E.any (fun e => e.name = backupFileName ts && e.isFile)) = false := by
      simp only [List.any_eq_false]
      intro e he
      simp [hnew e he]
    simp [shutilCopyInto, hany]
  -- the templating overwrite takes the map branch and leaves the backup alone
  have hS2 : shutilCopyInto (E ++ [Entry.file (backupFileName ts) C now1]) configName C' now2 =
      (E.map (overwriteFn configName C' now2)) ++ [Entry.file (backupFileName ts) C now1] := by
    have hany1 : ((E ++ [Entry.file (backupFileName ts) C now1]).any
        (fun e => e.name = configName && e.isFile)) = true := by
      refine List.any_eq_true.mpr
        ⟨Entry.file configName C cm, List.mem_append_left _ hc1E, by simp⟩
    simp only [shutilCopyInto, hany1, if_true, List.map_append, List.map_cons, List.map_nil]
    rw [overwriteFn_id configName C' now2 (Entry.file (backupFileName ts) C now1)
      (by simpa using hnc)]
  have hmatchne : ∀ x ∈ globEntries E backupGlobPattern, x.name ≠ configName := by
    intro x hx
    have hx' : x ∈ E.filter (fun e => globMatchName backupGlobPattern.data e.name.data) := hx
    have hpx := List.of_mem_filter hx'
    exact matched_name_ne_config x.name hpx
  have hglobmap : globEntries (E.map (overwriteFn configName C' now2)) backupGlobPattern =
      globEntries E backupGlobPattern := by
    rw [globEntries_map_overwrite, map_overwrite_id _ _ _ _ hmatchne]
  have hglobnb : globEntries [Entry.file (backupFileName ts) C now1] backupGlobPattern =
      [Entry.file (backupFileName ts) C now1] := by
    simp only [globEntries, List.filter_cons, Entry.name, hts, if_true, List.filter_nil]
  have hglobS2 : globEntries
      ((E.map (overwriteFn configName C' now2)) ++ [Entry.file (backupFileName ts) C now1])
      backupGlobPattern =
      globEntries E backupGlobPattern ++ [Entry.file (backupFileName ts) C now1] := by
    rw [globEntries_append, hglobmap, hglobnb]
  have hlt : ∀ x ∈ globEntries E backupGlobPattern,
      strLt x.name.data (backupFileName ts).data = true := by
    intro x hx
    have hx' : x ∈ E.filter (fun e => globMatchName backupGlobPattern.data e.name.data) := hx
    have hpx := List.of_mem_filter hx'
    exact hmax x (List.mem_of_mem_filter hx') hpx
  have hpick : pickMaxName (globEntries
      ((E.map (overwriteFn configName C' now2)) ++ [Entry.file (backupFileName ts) C now1])
      backupGlobPattern) = some (.file (backupFileName ts) C now1) := by
    rw [hglobS2]
    exact pickMaxName_append_top _ _ hlt
  -- restore copies the new backup over the config, then deletes it
  have hany2 : (((E.map (overwriteFn configName C' now2)) ++
      [Entry.file (backupFileName ts) C now1]).any
      (fun e => e.name = configName && e.isFile)) = true := by
    refine List.any_eq_true.mpr
      ⟨overwriteFn configName C' now2 (Entry.file configName C cm),
        List.mem_append_left _ (List.mem_map_of_mem _ hc1E), ?_⟩
    simp [overwriteFn]
  have hrestore : restore_backup
      (shutilCopyInto (E ++ [Entry.file (backupFileName ts) C now1]) configName C' now2) now3 =
      (((E.map (overwriteFn configName C' now2)) ++
          [Entry.file (backupFileName ts) C now1]).map (overwriteFn configName C now3)).filter
        (fun e => e.name ≠ backupFileName ts) := by
    rw [hS2]
    unfold restore_backup
    rw [hpick]
    simp only [pyListRemove, shutilCopyInto, hany2, if_true]
  rw [hrestore, hb]
  refine ⟨rfl, ?_, ?_, ?_, ?_⟩
  · -- exactly one live config, holding the backed-up content
    rw [filter_swap, filter_name_map_overwrite, List.filter_append,
      filter_name_map_overwrite, hconf]
    have h2 : [(Entry.file (backupFileName ts) C now1)].filter
        (fun e => e.name = configName) = [] := by
      simp [List.filter_cons, Entry.name, hnc]
    rw [h2, List.append_nil]
    simp [overwriteFn, Entry.name, Entry.isFile, List.filter_cons, Ne.symm hnc]
  · -- the new backup file is gone
    intro e he
    have := List.of_mem_filter he
    simpa using this
  · -- every earlier backup survives
    intro e he hm
    have hen : e.name ≠ configName := matched_name_ne_config e.name hm
    have heb : e.name ≠ backupFileName ts :=
      fun h => strLt_ne (hmax e he hm) (congrArg String.data h)
    refine List.mem_filter.mpr ⟨?_, by simpa using heb⟩
    have he2 : e ∈ (E.map (overwriteFn configName C' now2)) ++
        [Entry.file (backupFileName ts) C now1] :=
      List.mem_append_left _
        (List.mem_map.mpr ⟨e, he, overwriteFn_id configName C' now2 e hen⟩)
    exact List.mem_map.mpr ⟨e, he2, overwriteFn_id configName C now3 e hen⟩
  · -- the surviving backups are exactly the earlier ones
    show ((((E.map (overwriteFn configName C' now2)) ++
        [Entry.file (backupFileName ts) C now1]).map
          (overwriteFn configName C now3)).filter
        (fun e => decide (e.name ≠ backupFileName ts))).filter
        (fun e => globMatchName backupGlobPattern.data e.name.data) =
      globEntries E backupGlobPattern
    rw [filter_swap]
    have hXfilter : (((E.map (overwriteFn configName C' now2)) ++
        [Entry.file (backupFileName ts) C now1]).map (overwriteFn configName C now3)).filter
        (fun e => globMatchName backupGlobPattern.data e.name.data) =
        globEntries E backupGlobPattern ++ [Entry.file (backupFileName ts) C now1] := by
      have h := globEntries_map_overwrite backupGlobPattern
        ((E.map (overwriteFn configName C' now2)) ++
          [Entry.file (backupFileName ts) C now1])
        configName C now3
      rw [hglobS2] at h
      show globEntries (((E.map (overwriteFn configName C' now2)) ++
          [Entry.file (backupFileName ts) C now1]).map (overwriteFn configName C now3))
          backupGlobPattern = _
      rw [h, map_overwrite_id]
      intro x hx
      rcases List.mem_append.mp hx with hx | hx
      · exact hmatchne x hx
      · rw [List.mem_singleton.mp hx]
        exact hnc
    rw [hXfilter, List.filter_append]
    have h1 : (globEntries E backupGlobPattern).filter
        (fun e => decide (e.name ≠ backupFileName ts)) =
        globEntries E backupGlobPattern :=
      List.filter_eq_self.mpr (fun x hx => by
        simpa using fun h => strLt_ne (hlt x hx) (congrArg String.data h))
    have h2 : [(Entry.file (backupFileName ts) C now1)].filter
        (fun e => decide (e.name ≠ backupFileName ts)) = [] := by
      simp [List.filter_cons, Entry.name]
    rw [h1, h2, List.append_nil]
/-- Witness for C3 at a concrete workspace: one live config and one older
backup; the round trip restores the backed-up content and leaves exactly
one live config. -/
theorem C3_backup_restore_roundtrip_witness :
    workspace_backup_config
        [Entry.file "zowe.config.json" "CONF" 0,
         Entry.file "zowe.config.backup_20240101_100000.json" "OLD" 0]
        "20240102_090000" 1 =
      .ok ([Entry.file "zowe.config.json" "CONF" 0,
            Entry.file "zowe.config.backup_20240101_100000.json" "OLD" 0] ++
            [Entry.file (backupFileName "20240102_090000") "CONF" 1]) ∧
    (restore_backup
        (shutilCopyInto
          ([Entry.file "zowe.config.json" "CONF" 0,
            Entry.file "zowe.config.backup_20240101_100000.json" "OLD" 0] ++
            [Entry.file (backupFileName "20240102_090000") "CONF" 1])
          configName "TPL" 2) 3).filter (fun e => e.name = configName) =
      [Entry.file configName "CONF" 3] := by
  have h := C3_backup_restore_roundtrip
    [Entry.file "zowe.config.json" "CONF" 0,
     Entry.file "zowe.config.backup_20240101_100000.json" "OLD" 0]
    "CONF" "TPL" "20240102_090000" 0 1 2 3
    (by decide) (by decide) (by decide) (by decide)
  exact ⟨h.1, h.2.1⟩

/-- Outcome of one subprocess invocation. -/
inductive RunOutcome : Type where
  | ok
  | fail (rc : Int)
  | timeout
deriving DecidableEq, Repr

/-- The Python exceptions the embedded fragments can raise. -/
inductive PyExc : Type where
  | calledProcessError (rc : Int)
  | timeoutExpired
  | notADirectoryError
  | osErrorDirNotEmpty
  | shutilError
deriving DecidableEq, Repr

/-- `message_utils.run_with_spinner`: runs the command with `check=True`
and a timeout, and re-raises both `CalledProcessError` and
`TimeoutExpired` to the caller. -/
def run_with_spinner (outcome : RunOutcome) : Except PyExc Unit :=
  match outcome with
  | .ok => .ok ()
  | .fail rc => .error (.calledProcessError rc)
  | .timeout => .error .timeoutExpired

/-- Insertion step of a stable sort by descending name. -/
def insertDesc (e : Entry) : List Entry → List Entry
  | [] => [e]
  | f :: fs => if strLt f.name.data e.name.data then e :: f :: fs else f :: insertDesc e fs

/-- `path_utils.get_all_files_reversed_sorted`: all glob matches sorted by
basename in descending lexicographic order. -/
def get_all_files_reversed_sorted (entries : List Entry) (pattern : String) : List Entry :=
  (globEntries entries pattern).foldr insertDesc []

/-- One batch of `npm install` invocations inside
`install.phase3_install_zowe`: modules are attempted in order; a
`CalledProcessError` is caught, logged and skipped; any other exception
(in particular `TimeoutExpired`) propagates and aborts the rest of the
batch.  Returns the attempted module names and the propagating exception,
if any. -/
def installZoweBatch (outcome : String → RunOutcome) :
    List Entry → List String × Option PyExc
  | [] => ([], none)
  | m :: rest =>
      match run_with_spinner (outcome m.name) with
      | .ok _ =>
          let r := installZoweBatch outcome rest
          (m.name :: r.1, r.2)
      | .error (.calledProcessError _) =>
          let r := installZoweBatch outcome rest
          (m.name :: r.1, r.2)
      | .error e => ([m.name], some e)

/-- `install.phase3_install_zowe`: the core module batch, then — only if
the core batch did not raise — the plugin module batch. -/
def phase3_install_zowe (coreDir pluginDir : List Entry)
    (outcome : String → RunOutcome) : List String × Option PyExc :=
  let core := installZoweBatch outcome (get_all_files_reversed_sorted coreDir "*.tgz")
  match core.2 with
  | some e => (core.1, some e)
  | none =>
      let plugin := installZoweBatch outcome (get_all_files_reversed_sorted pluginDir "*.tgz")
      (core.1 ++ plugin.1, plugin.2)

/-- Claim C5 is false as stated: with two core modules where the first
(reverse-lexicographically) times out, the second module is never
attempted and the phase aborts with `TimeoutExpired` — `phase3_install_zowe`
catches only `CalledProcessError`, not `TimeoutExpired`. -/
theorem C5_counterexample :
    phase3_install_zowe [Entry.file "m1.tgz" "" 0, Entry.file "m2.tgz" "" 0] []
        (fun s => if s = "m2.tgz" then .timeout else .ok) =
      (["m2.tgz"], some .timeoutExpired) ∧
    "m1.tgz" ∉ (phase3_install_zowe [Entry.file "m1.tgz" "" 0, Entry.file "m2.tgz" "" 0] []
        (fun s => if s = "m2.tgz" then .timeout else .ok)).1 := by
  constructor
  · decide
  · decide

/-- Claim C5 (amended): in phase 3, a module install that fails with a
nonzero exit code is logged and does not abort the remaining modules —
when no module times out, every core and plugin module is attempted and
the phase completes without raising; a timed-out module, however, raises
and aborts the remaining modules. -/
theorem C5_phase3_failures_do_not_abort (coreDir pluginDir : List Entry)
    (outcome : String → RunOutcome)
    (h : ∀ s, outcome s ≠ .timeout) :
    phase3_install_zowe coreDir pluginDir outcome =
      ((get_all_files_reversed_sorted coreDir "*.tgz").map Entry.name ++
        (get_all_files_reversed_sorted pluginDir "*.tgz").map Entry.name, none) := by
  have batch : ∀ l : List Entry, installZoweBatch outcome l = (l.map Entry.name, none) := by
    intro l
    induction l with
    | nil => rfl
    | cons m rest ih =>
      rcases ho : outcome m.name with _ | rc | _
      · simp [installZoweBatch, run_with_spinner, ho, ih]
      · simp [installZoweBatch, run_with_spinner, ho, ih]
      · exact absurd ho (h m.name)
  simp [phase3_install_zowe, batch]

/-- Witness for the amended C5: one failing core module and one plugin
module; both are attempted and the phase completes. -/
theorem C5_phase3_failures_do_not_abort_witness :
    phase3_install_zowe [Entry.file "m1.tgz" "" 0] [Entry.file "p1.tgz" "" 0]
        (fun s => if s = "m1.tgz" then .fail 1 else .ok) =
      (["m1.tgz", "p1.tgz"], none) := by
  have h := C5_phase3_failures_do_not_abort
    [Entry.file "m1.tgz" "" 0] [Entry.file "p1.tgz" "" 0]
    (fun s => if s = "m1.tgz" then .fail 1 else .ok)
    (by intro s; dsimp only; split <;> simp)
  exact h

instance {e a : Type} [DecidableEq e] [DecidableEq a] : DecidableEq (Except e a) :=
  fun x y =>
    match x, y with
    | .ok v, .ok w => if h : v = w then .isTrue (by rw [h]) else .isFalse (by simp [h])
    | .error v, .error w => if h : v = w then .isTrue (by rw [h]) else .isFalse (by simp [h])
    | .ok _, .error _ => .isFalse (by simp)
    | .error _, .ok _ => .isFalse (by simp)

/-- The characters after the last separator. -/
def pyBasenameL (s : List Char) : List Char :=
  s.foldl (fun acc c => if c = '/' then [] else acc ++ [c]) []

/-- `os.path.basename` for forward-slash paths. -/
def pyBasename (p : String) : String := String.mk (pyBasenameL p.data)

/-- `"/".join(components)`. -/
def joinPath : List String → String
  | [] => ""
  | [s] => s
  | s :: rest => s ++ "/" ++ joinPath rest

/-- The basename of the nested-folder argument:
`"" if not target_dir else os.path.basename(target_dir)`. -/
def moveTargetBasename : Option String → String
  | none => ""
  | some t => if t = "" then "" else pyBasename t

/-- Whether a listing holds a file whose lowercased name does not end
with the suffix — the `non_target_files` test of `find_real_directory`. -/
def hasNonSuffixFile (children : List Entry) (suffix : String) : Bool :=
  children.any (fun e => e.isFile && !(pyEndsWith (pyLower e.name) suffix))

mutual

/-- The `os.walk` of one entry for `find_real_directory`: a file
contributes nothing; a directory is checked itself first, then its
subdirectories in listing order. -/
def findRealDirTree : Entry → String → Option (List String)
  | .file _ _ _, _ => none
  | .dir n _ cs, suffix =>
      if hasNonSuffixFile cs suffix then some [n]
      else (findRealDirList cs suffix).map (fun p => n :: p)

/-- The walk over a listing's entries, in order. -/
def findRealDirList : List Entry → String → Option (List String)
  | [], _ => none
  | e :: rest, suffix =>
      match findRealDirTree e suffix with
      | some p => some p
      | none => findRealDirList rest suffix

end

/-- `path_utils.find_real_directory` on the directory named `name` with
listing `children`: pre-order walk (`os.walk` top-down); the first
directory holding a file whose lowercased name does not end with the
suffix is returned as its component path from the root. -/
def findRealDir (name : String) (children : List Entry) (suffix : String) :
    Option (List String) :=
  if hasNonSuffixFile children suffix then some [name]
  else (findRealDirList children suffix).map (fun p => name :: p)

/-- Result of `move_contents_up`: the parent's new listing, or the parent
directory itself removed (`os.rmdir` of the parent when the nested-folder
argument is empty and the parent is empty). -/
inductive MoveResult : Type where
  | entries (l : List Entry)
  | parentRemoved
deriving DecidableEq, Repr

/-- `shutil.move(bogus/item, parent/item)` of one entry into the parent
listing: no like-named entry — the item is appended; an existing
directory of that name — the source lands inside it unless a like-named
entry is already there (`shutil.Error`); an existing file — a file source
overwrites it (the Windows `copy2` fallback), a directory source raises.
Only the no-collision branch is exercised by the theorems below. -/
def shutilMoveIntoDir (dst : List Entry) (item : Entry) : Except PyExc (List Entry) :=
  match dst.find? (fun e => e.name = item.name) with
  | none => .ok (dst ++ [item])
  | some (.dir n m cs) =>
      if cs.any (fun e => e.name = item.name) then .error .shutilError
      else .ok (dst.map (fun e =>
        if e.name = n && !e.isFile then .dir n m (cs ++ [item]) else e))
  | some (.file _ _ _) =>
      match item with
      | .file _ c mt => .ok (dst.map (fun e =>
          if e.name = item.name && e.isFile then .file item.name c mt else e))
      | .dir _ _ _ => .error .shutilError

/-- The move loop of `move_contents_up`: each item of the emptied folder
in listing order. -/
def moveEntriesUp (dst : List Entry) : List Entry → Except PyExc (List Entry)
  | [] => .ok dst
  | i :: rest => do
      let d ← shutilMoveIntoDir dst i
      moveEntriesUp d rest

/-- `file_utils.move_contents_up(parent_dir, target_dir)`: the parent
directory is named `parentName` (a path without trailing separator) with
listing `entries`; `target` is the nested-folder argument (a path, or
`None` from a failed `find_real_directory`).  With an empty basename
(`None`, the empty string, or a path ending in a separator),
`os.path.join(parent_dir, "")` gains a trailing separator, so the
equality guard fails and `glob` matches the parent directory itself: every
move is then a same-path no-op and the final `os.rmdir(parent)` removes
an empty parent or raises `OSError` on a non-empty one.  With a non-empty
basename, `glob` matches like-named entries of the parent: no match
returns silently; a matching file makes `os.listdir` raise
`NotADirectoryError`; a matching directory (latest by mtime) has its
items moved up one by one and is then removed. -/
def move_contents_up (parentName : String) (entries : List Entry)
    (target : Option String) : Except PyExc MoveResult :=
  let b := moveTargetBasename target
  if b = "" then
    if entries.isEmpty then .ok .parentRemoved
    else .error .osErrorDirNotEmpty
  else
    match pickMaxMtime (globEntries entries b) with
    | none => .ok (.entries entries)
    | some (.file _ _ _) => .error .notADirectoryError
    | some (.dir n _ cs) =>
        (moveEntriesUp (entries.filter (fun e => !(e.name = n && !e.isFile))) cs).map
          (fun l => .entries l)

/-- The archive-normalization step of `install.phase2_extract_packages`:
`move_contents_up(dest_dir, find_real_directory(dest_dir, "." + type))`,
the found walk path joined with the separator. -/
def phase2_normalize_step (name : String) (entries : List Entry) (suffix : String) :
    Except PyExc MoveResult :=
  move_contents_up name entries
    ((findRealDir name entries suffix).map joinPath)

/-- A freshly extracted tool directory named "tool": the archive, and a
nested wrapper folder whose payload contains a subfolder that happens to
bear the tool directory's own name. -/
def c4Start : List Entry :=
  [Entry.file "tool-1.0.zip" "" 0,
   Entry.dir "tool-1.0" 0
     [Entry.file "x.txt" "" 0, Entry.dir "tool" 0 [Entry.file "y.txt" "" 0]]]

/-- The directory after one normalization step: collapsed, with the
payload's "tool" subfolder at top level. -/
def c4Once : List Entry :=
  [Entry.file "tool-1.0.zip" "" 0, Entry.file "x.txt" "" 0,
   Entry.dir "tool" 0 [Entry.file "y.txt" "" 0]]

/-- The directory after a second step: the "tool" subfolder has wrongly
been collapsed as well. -/
def c4Twice : List Entry :=
  [Entry.file "tool-1.0.zip" "" 0, Entry.file "x.txt" "" 0,
   Entry.file "y.txt" "" 0]

/-- Claim C4 is false as stated: on a destination directory named "tool"
whose payload contains a subfolder also named "tool", the second
application of the normalization step collapses that subfolder too —
`find_real_directory` returns the root, whose basename then matches the
payload subfolder. -/
theorem C4_counterexample :
    phase2_normalize_step "tool" c4Start ".zip" = .ok (.entries c4Once) ∧
    phase2_normalize_step "tool" c4Once ".zip" = .ok (.entries c4Twice) ∧
    c4Once ≠ c4Twice := by
  refine ⟨by decide, by decide, by decide⟩

/-- Claim C4 (amended): the normalization step is a no-op on an
already-collapsed destination — one whose listing holds a file not ending
with the archive suffix — provided no top-level entry matches the
destination directory's own basename; full idempotence fails exactly when
the collapsed payload contains an entry named like the destination. -/
theorem C4_normalize_noop_when_collapsed (name : String) (entries : List Entry)
    (suffix : String)
    (hname1 : name ≠ "")
    (hname2 : pyBasename name = name)
    (hfile : hasNonSuffixFile entries suffix = true)
    (hnomatch : globEntries entries name = []) :
    phase2_normalize_step name entries suffix = .ok (.entries entries) := by
  unfold phase2_normalize_step findRealDir
  rw [if_pos hfile]
  show move_contents_up name entries (some (joinPath [name])) = _
  have hbase : moveTargetBasename (some (joinPath [name])) = name := by
    simp [moveTargetBasename, joinPath, hname1, hname2]
  simp only [move_contents_up, hbase]
  rw [if_neg hname1, hnomatch]
  rfl

/-- Witness for the amended C4: an already-collapsed vscode directory is
left unchanged by a second normalization step. -/
theorem C4_normalize_noop_when_collapsed_witness :
    phase2_normalize_step "vscode"
        [Entry.file "VSCode-1.85.zip" "" 0, Entry.file "code.exe" "" 0] ".zip" =
      .ok (.entries [Entry.file "VSCode-1.85.zip" "" 0, Entry.file "code.exe" "" 0]) :=
  C4_normalize_noop_when_collapsed "vscode"
    [Entry.file "VSCode-1.85.zip" "" 0, Entry.file "code.exe" "" 0] ".zip"
    (by decide) (by decide) (by decide) (by decide)

/-- Claim C8 is false as stated: a nested-folder argument naming an
existing top-level file makes `os.listdir` raise `NotADirectoryError`,
and the `None` argument from a failed `find_real_directory` makes the
final `os.rmdir` raise `OSError` on a non-empty parent — neither returns
silently. -/
theorem C8_counterexample :
    move_contents_up "ws" [Entry.file "f.txt" "" 0] (some "f.txt") =
      .error .notADirectoryError ∧
    move_contents_up "ws" [Entry.file "a.zip" "" 0] none =
      .error .osErrorDirNotEmpty := by
  refine ⟨by decide, by decide⟩

/-- Claim C8 (amended): `move_contents_up` with a non-empty nested-folder
path whose basename matches no entry of the parent returns silently and
leaves the parent's contents unchanged; an argument naming an existing
file, or the empty/`None` argument, raises instead. -/
theorem C8_move_contents_up_noop (parentName : String) (entries : List Entry)
    (t : String) (ht : t ≠ "") (hb : pyBasename t ≠ "")
    (hnomatch : globEntries entries (pyBasename t) = []) :
    move_contents_up parentName entries (some t) = .ok (.entries entries) := by
  have hbase : moveTargetBasename (some t) = pyBasename t := by
    simp [moveTargetBasename, ht]
  simp only [move_contents_up, hbase]
  rw [if_neg hb, hnomatch]
  rfl

/-- Witness for the amended C8: a nested-folder argument matching nothing
in the parent leaves the listing untouched. -/
theorem C8_move_contents_up_noop_witness :
    move_contents_up "java" [Entry.file "jdk21.zip" "" 0] (some "missing-dir") =
      .ok (.entries [Entry.file "jdk21.zip" "" 0]) :=
  C8_move_contents_up_noop "java" [Entry.file "jdk21.zip" "" 0] "missing-dir"
    (by decide) (by decide) (by decide)

/-- One `path.replace("\\", "\\\\")` pass: each backslash becomes two. -/
def escapeBackslashesL : List Char → List Char
  | [] => []
  | c :: rest => (if c = '\\' then ['\\', '\\'] else [c]) ++ escapeBackslashesL rest

/-- `path_utils.escape_backslashes(path, for_regex)`: one doubling pass, or
— with `for_regex` — the function applied again to the once-doubled path,
so each original backslash becomes four. -/
def escape_backslashes (path : String) (forRegex : Bool := false) : String :=
  if forRegex then String.mk (escapeBackslashesL (escapeBackslashesL path.data))
  else String.mk (escapeBackslashesL path.data)

/-- `re.sub` template parsing restricted to what this repository's
replacement strings contain: a doubled backslash denotes one literal
backslash; any other escape (group references, letter escapes — never
produced by these scripts) is modelled as a template error. -/
def pyUnescapeTemplate : List Char → Option (List Char)
  | [] => some []
  | c :: rest =>
      if c = '\\' then
        match rest with
        | '\\' :: rest' => (pyUnescapeTemplate rest').map (fun l => '\\' :: l)
        | _ => none
      else (pyUnescapeTemplate rest).map (fun l => c :: l)

/-- Fuel-driven leftmost non-overlapping replace-all over characters —
`re.sub` for a metacharacter-free pattern with an already-parsed
template.  Fuel `s.length` suffices: every step consumes at least one
character. -/
def replaceFuel (pat repl : List Char) : Nat → List Char → List Char
  | _, [] => []
  | 0, s => s
  | f+1, c :: rest =>
      if !pat.isEmpty && pat.isPrefixOf (c :: rest) then
        repl ++ replaceFuel pat repl f (rest.drop (pat.length - 1))
      else c :: replaceFuel pat repl f rest

/-- Replace-all with sufficient fuel. -/
def replaceAllL (pat repl s : List Char) : List Char :=
  replaceFuel pat repl s.length s

/-- `file_utils.replace_in_file(file_path, pattern, replacement)` at the
content level, for the literal (metacharacter-free) patterns this
repository passes: parse the replacement template, then substitute every
occurrence of the pattern. -/
def replace_in_file (pattern replacement content : String) : Option String :=
  (pyUnescapeTemplate replacement.data).map
    (fun r => String.mk (replaceAllL pattern.data r content.data))

/-- One hexadecimal digit, uppercase. -/
def hexDigit : Nat → Char
  | 0 => '0' | 1 => '1' | 2 => '2' | 3 => '3' | 4 => '4' | 5 => '5' | 6 => '6' | 7 => '7'
  | 8 => '8' | 9 => '9' | 10 => 'A' | 11 => 'B' | 12 => 'C' | 13 => 'D' | 14 => 'E'
  | 15 => 'F' | _ => '0'

/-- The characters `urllib.parse.quote` leaves unencoded with the default
`safe='/'`: ASCII letters and digits, `_ . - ~` and the slash. -/
def pyQuoteSafe (c : Char) : Bool :=
  c.isAlphanum || c = '_' || c = '.' || c = '-' || c = '~' || c = '/'

/-- `urllib.parse.quote(s, safe='/')` over ASCII text: safe characters
kept, others percent-encoded with uppercase hex. -/
def pyQuoteL : List Char → List Char
  | [] => []
  | c :: rest =>
      (if pyQuoteSafe c then [c]
       else ['%', hexDigit (c.toNat / 16), hexDigit (c.toNat % 16)]) ++ pyQuoteL rest

/-- An absolute Windows drive path: drive letter and path components. -/
structure WinPath where
  drive : Char
  comps : List String
deriving DecidableEq, Repr

/-- `f"{workspace}"`: `str` of the path, e.g. `C:\ws`. -/
def winPathString (p : WinPath) : String :=
  String.mk ([p.drive, ':'] ++ (p.comps.map (fun c => '\\' :: c.data)).flatten)

/-- `PureWindowsPath.as_uri()`: `file:///` plus the unquoted drive and the
posix-style path part quoted with `safe='/'`. -/
def pathAsUri (p : WinPath) : String :=
  String.mk ("file:///".data ++ [p.drive, ':'] ++
    pyQuoteL ((p.comps.map (fun c => '/' :: c.data)).flatten))

/-- `quote(Path(workspace).as_uri())` as built in `phase5_path_migration`:
the full URI quoted once more, which also percent-encodes its colons. -/
def workspaceUri (p : WinPath) : String :=
  String.mk (pyQuoteL (pathAsUri p).data)

/-- The two workspace substitutions of `install.phase5_path_migration`:
`_WORKSPACE_` is replaced with `escape_backslashes(workspace, for_regex=True)`
(which `re.sub` template parsing halves back to the doubled form), then
`_WORKSPACEURI_` with the quoted workspace URI. -/
def phase5_workspace_tokens (p : WinPath) (content : String) : Option String :=
  (replace_in_file "_WORKSPACE_" (escape_backslashes (winPathString p) true) content).bind
    (fun c1 => replace_in_file "_WORKSPACEURI_" (workspaceUri p) c1)

theorem mem_of_isPrefixOf {p s : List Char} (h : p.isPrefixOf s = true) :
    ∀ c ∈ p, c ∈ s := by
  induction p generalizing s with
  | nil => intro c hc; simp at hc
  | cons a as ih =>
    cases s with
    | nil => simp [List.isPrefixOf] at h
    | cons b bs =>
      simp only [List.isPrefixOf, Bool.and_eq_true, beq_iff_eq] at h
      intro c hc
      rcases List.mem_cons.mp hc with hc | hc
      · rw [hc, h.1]; exact List.mem_cons_self _ _
      · exact List.mem_cons_of_mem _ (ih h.2 c hc)

theorem isPrefixOf_append_self (p X : List Char) : p.isPrefixOf (p ++ X) = true := by
  induction p with
  | nil => cases X <;> rfl
  | cons a as ih => simp [List.isPrefixOf, ih]

theorem isPrefixOf_common_mismatch (common : List Char) {a b : Char} (ps qs : List Char)
    (hab : a ≠ b) :
    (common ++ a :: ps).isPrefixOf (common ++ b :: qs) = false := by
  induction common with
  | nil => simp [List.isPrefixOf, hab]
  | cons c cs ih => simp [List.isPrefixOf, ih]

theorem isPrefixOf_false_of_missing {c0 : Char} {p s : List Char}
    (hc : c0 ∈ p) (h : c0 ∉ s) : p.isPrefixOf s = false := by
  cases hps : p.isPrefixOf s with
  | false => rfl
  | true => exact absurd (mem_of_isPrefixOf hps c0 hc) h

theorem replaceFuel_fuel_irrel (pat repl : List Char) :
    ∀ (f g : Nat) (s : List Char), s.length ≤ f → s.length ≤ g →
      replaceFuel pat repl f s = replaceFuel pat repl g s := by
  intro f
  induction f with
  | zero =>
    intro g s hf _
    cases s with
    | nil => cases g <;> rfl
    | cons c cs => simp at hf
  | succ f ih =>
    intro g s hf hg
    cases s with
    | nil => cases g <;> rfl
    | cons c cs =>
      cases g with
      | zero => simp at hg
      | succ g' =>
        simp only [List.length_cons] at hf hg
        simp only [replaceFuel]
        by_cases hcond : (!pat.isEmpty && pat.isPrefixOf (c :: cs)) = true
        · rw [if_pos hcond, if_pos hcond]
          congr 1
          apply ih
          · simp only [List.length_drop]; omega
          · simp only [List.length_drop]; omega
        · rw [if_neg hcond, if_neg hcond]
          congr 1
          exact ih g' cs (by omega) (by omega)

theorem replaceAllL_cons_no_match (pat repl : List Char) (c : Char) (s : List Char)
    (h : pat.isPrefixOf (c :: s) = false) :
    replaceAllL pat repl (c :: s) = c :: replaceAllL pat repl s := by
  unfold replaceAllL
  simp only [List.length_cons, replaceFuel]
  rw [if_neg (by simp [h])]

theorem replaceAllL_head_match (pat repl X : List Char) (hne : pat ≠ []) :
    replaceAllL pat repl (pat ++ X) = repl ++ replaceAllL pat repl X := by
  cases pat with
  | nil => exact absurd rfl hne
  | cons p0 pr =>
    have hlen : ((p0 :: pr) ++ X).length = (pr ++ X).length + 1 := by simp
    unfold replaceAllL
    rw [hlen]
    show replaceFuel (p0 :: pr) repl ((pr ++ X).length + 1) (p0 :: (pr ++ X)) =
      repl ++ replaceFuel (p0 :: pr) repl X.length X
    have hpre : (p0 :: pr).isPrefixOf (p0 :: (pr ++ X)) = true :=
      isPrefixOf_append_self (p0 :: pr) X
    simp only [replaceFuel]
    rw [if_pos (by simp [hpre])]
    congr 1
    have hdrop : (pr ++ X).drop ((p0 :: pr).length - 1) = X := by
      simp only [List.length_cons, Nat.add_sub_cancel]
      exact List.drop_left pr X
    rw [hdrop]
    exact replaceFuel_fuel_irrel _ _ _ _ X
      (by simp only [List.length_append]; exact Nat.le_add_left _ _) (le_refl _)

theorem replaceAllL_skip_seg (pat repl : List Char) (c0 : Char) (pr a X : List Char)
    (hpat : pat = c0 :: pr) (ha : c0 ∉ a) :
    replaceAllL pat repl (a ++ X) = a ++ replaceAllL pat repl X := by
  induction a with
  | nil => simp
  | cons c a' ih =>
    have hc : c0 ≠ c := fun h => ha (h ▸ List.mem_cons_self c a')
    have hpre : pat.isPrefixOf (c :: (a' ++ X)) = false := by
      rw [hpat]; simp [List.isPrefixOf, hc]
    rw [List.cons_append, replaceAllL_cons_no_match _ _ _ _ hpre,
      ih (fun h => ha (List.mem_cons_of_mem _ h))]
    rfl

theorem replaceAllL_id_of_notMem (pat repl : List Char) (c0 : Char) (pr s : List Char)
    (hpat : pat = c0 :: pr) (hs : c0 ∉ s) :
    replaceAllL pat repl s = s := by
  have h := replaceAllL_skip_seg pat repl c0 pr s [] hpat hs
  simpa [replaceAllL, replaceFuel] using h

theorem replaceAllL_skip_uri_token (repl X : List Char)
    (h : ("WORKSPACE_".data.isPrefixOf X) = false) :
    replaceAllL "_WORKSPACE_".data repl ("_WORKSPACEURI_".data ++ X) =
      "_WORKSPACEURI_".data ++ replaceAllL "_WORKSPACE_".data repl X := by
  show replaceAllL "_WORKSPACE_".data repl ('_' :: ("WORKSPACEURI".data ++ '_' :: X)) =
    "_WORKSPACEURI_".data ++ replaceAllL "_WORKSPACE_".data repl X
  have hpre1 : ("_WORKSPACE_".data : List Char).isPrefixOf
      ('_' :: ("WORKSPACEURI".data ++ '_' :: X)) = false :=
    isPrefixOf_common_mismatch "_WORKSPACE".data [] ("RI".data ++ '_' :: X) (by decide)
  rw [replaceAllL_cons_no_match _ _ _ _ hpre1]
  rw [replaceAllL_skip_seg "_WORKSPACE_".data repl '_' "WORKSPACE_".data
    "WORKSPACEURI".data ('_' :: X) (by decide) (by decide)]
  have hpre3 : ("_WORKSPACE_".data : List Char).isPrefixOf ('_' :: X) = false := by
    show (('_' :: "WORKSPACE_".data : List Char)).isPrefixOf ('_' :: X) = false
    simp [List.isPrefixOf, h]
  rw [replaceAllL_cons_no_match _ _ _ _ hpre3]
  rfl

theorem pyUnescapeTemplate_of_no_backslash (s : List Char) (h : '\\' ∉ s) :
    pyUnescapeTemplate s = some s := by
  induction s with
  | nil => rfl
  | cons c rest ih =>
    have hc : c ≠ '\\' := fun hh => h (hh ▸ List.mem_cons_self _ _)
    have hrest : '\\' ∉ rest := fun hh => h (List.mem_cons_of_mem _ hh)
    unfold pyUnescapeTemplate
    rw [if_neg hc, ih hrest]
    rfl

theorem escapeBackslashesL_cons_ne (c : Char) (rest : List Char) (hc : c ≠ '\\') :
    escapeBackslashesL (c :: rest) = c :: escapeBackslashesL rest := by
  simp [escapeBackslashesL, hc]

theorem pyUnescapeTemplate_escape_twice (x : List Char) :
    pyUnescapeTemplate (escapeBackslashesL (escapeBackslashesL x)) =
      some (escapeBackslashesL x) := by
  induction x with
  | nil => rfl
  | cons c rest ih =>
    by_cases hc : c = '\\'
    · subst hc
      show pyUnescapeTemplate
          ('\\' :: '\\' :: '\\' :: '\\' :: escapeBackslashesL (escapeBackslashesL rest)) =
        some ('\\' :: '\\' :: escapeBackslashesL rest)
      unfold pyUnescapeTemplate
      rw [if_pos rfl]
      simp only []
      unfold pyUnescapeTemplate
      rw [if_pos rfl]
      simp [ih]
    · rw [escapeBackslashesL_cons_ne c rest hc,
        escapeBackslashesL_cons_ne c (escapeBackslashesL rest) hc]
      unfold pyUnescapeTemplate
      rw [if_neg hc, ih]
      rfl

theorem mem_escapeBackslashesL {c : Char} {l : List Char} (hc : c ≠ '\\')
    (h : c ∈ escapeBackslashesL l) : c ∈ l := by
  induction l with
  | nil => simp [escapeBackslashesL] at h
  | cons d rest ih =>
    by_cases hd : d = '\\'
    · subst hd
      have h' : c ∈ ('\\' :: '\\' :: escapeBackslashesL rest) := by
        simpa [escapeBackslashesL] using h
      rcases List.mem_cons.mp h' with h1 | h1
      · exact absurd h1 hc
      rcases List.mem_cons.mp h1 with h2 | h2
      · exact absurd h2 hc
      · exact List.mem_cons_of_mem _ (ih h2)
    · rw [escapeBackslashesL_cons_ne d rest hd] at h
      rcases List.mem_cons.mp h with h | h
      · rw [h]; exact List.mem_cons_self _ _
      · exact List.mem_cons_of_mem _ (ih h)

/-- Claim C6: for a settings file of the form
`pfx ++ "_WORKSPACE_" ++ mid ++ "_WORKSPACEURI_" ++ sfx` whose other
content is free of the placeholder marker `_`, and a workspace drive path
whose textual form has no underscore, the phase-5 templating replaces
`_WORKSPACE_` with the doubled-backslash form of the workspace path
(`escape_backslashes` once — the quadrupling of `for_regex=True` is
halved back by `re.sub` template parsing), replaces `_WORKSPACEURI_` with
the percent-encoded `file://` URI of the workspace path, and leaves all
other content unchanged. -/
theorem C6_phase5_workspace_templating (wp : WinPath) (pfx mid sfx : String)
    (hp : '_' ∉ pfx.data) (hm : '_' ∉ mid.data) (hs : '_' ∉ sfx.data)
    (hws : '_' ∉ (winPathString wp).data)
    (hq : '\\' ∉ (workspaceUri wp).data) :
    phase5_workspace_tokens wp (pfx ++ "_WORKSPACE_" ++ mid ++ "_WORKSPACEURI_" ++ sfx) =
      some (pfx ++ escape_backslashes (winPathString wp) ++ mid ++ workspaceUri wp ++ sfx) := by
  have hr1 : '_' ∉ escapeBackslashesL (winPathString wp).data :=
    fun hmem => hws (mem_escapeBackslashesL (by decide) hmem)
  have hun1 : pyUnescapeTemplate (escape_backslashes (winPathString wp) true).data =
      some (escapeBackslashesL (winPathString wp).data) :=
    pyUnescapeTemplate_escape_twice (winPathString wp).data
  have hun2 : pyUnescapeTemplate (workspaceUri wp).data = some (workspaceUri wp).data :=
    pyUnescapeTemplate_of_no_backslash _ hq
  have hcontent : (pfx ++ "_WORKSPACE_" ++ mid ++ "_WORKSPACEURI_" ++ sfx).data =
      pfx.data ++ ("_WORKSPACE_".data ++
        (mid.data ++ ("_WORKSPACEURI_".data ++ sfx.data))) := by
    simp [String.data_append, List.append_assoc]
  have h1 : replaceAllL "_WORKSPACE_".data (escapeBackslashesL (winPathString wp).data)
      (pfx.data ++ ("_WORKSPACE_".data ++
        (mid.data ++ ("_WORKSPACEURI_".data ++ sfx.data)))) =
      pfx.data ++ (escapeBackslashesL (winPathString wp).data ++
        (mid.data ++ ("_WORKSPACEURI_".data ++ sfx.data))) := by
    rw [replaceAllL_skip_seg _ _ '_' "WORKSPACE_".data pfx.data _ (by decide) hp]
    congr 1
    rw [replaceAllL_head_match _ _ _ (by decide)]
    congr 1
    rw [replaceAllL_skip_seg _ _ '_' "WORKSPACE_".data mid.data _ (by decide) hm]
    congr 1
    rw [replaceAllL_skip_uri_token _ sfx.data
      (isPrefixOf_false_of_missing (show '_' ∈ "WORKSPACE_".data by decide) hs)]
    congr 1
    exact replaceAllL_id_of_notMem _ _ '_' "WORKSPACE_".data sfx.data (by decide) hs
  have h2 : replaceAllL "_WORKSPACEURI_".data (workspaceUri wp).data
      (pfx.data ++ (escapeBackslashesL (winPathString wp).data ++
        (mid.data ++ ("_WORKSPACEURI_".data ++ sfx.data)))) =
      pfx.data ++ (escapeBackslashesL (winPathString wp).data ++
        (mid.data ++ ((workspaceUri wp).data ++ sfx.data))) := by
    rw [replaceAllL_skip_seg _ _ '_' "WORKSPACEURI_".data pfx.data _ (by decide) hp]
    congr 1
    rw [replaceAllL_skip_seg _ _ '_' "WORKSPACEURI_".data
      (escapeBackslashesL (winPathString wp).data) _ (by decide) hr1]
    congr 1
    rw [replaceAllL_skip_seg _ _ '_' "WORKSPACEURI_".data mid.data _ (by decide) hm]
    congr 1
    rw [replaceAllL_head_match _ _ _ (by decide)]
    congr 1
    exact replaceAllL_id_of_notMem _ _ '_' "WORKSPACEURI_".data sfx.data (by decide) hs
  have e1 : replace_in_file "_WORKSPACE_" (escape_backslashes (winPathString wp) true)
      (pfx ++ "_WORKSPACE_" ++ mid ++ "_WORKSPACEURI_" ++ sfx) =
      some (String.mk (pfx.data ++ (escapeBackslashesL (winPathString wp).data ++
        (mid.data ++ ("_WORKSPACEURI_".data ++ sfx.data))))) := by
    unfold replace_in_file
    rw [hun1, Option.map_some']
    congr 1
    congr 1
    rw [hcontent]
    exact h1
  have e2 : replace_in_file "_WORKSPACEURI_" (workspaceUri wp)
      (String.mk (pfx.data ++ (escapeBackslashesL (winPathString wp).data ++
        (mid.data ++ ("_WORKSPACEURI_".data ++ sfx.data))))) =
      some (pfx ++ escape_backslashes (winPathString wp) ++ mid ++ workspaceUri wp ++ sfx) := by
    unfold replace_in_file
    rw [hun2, Option.map_some']
    congr 1
    apply String.ext
    show replaceAllL "_WORKSPACEURI_".data (workspaceUri wp).data
        (pfx.data ++ (escapeBackslashesL (winPathString wp).data ++
          (mid.data ++ ("_WORKSPACEURI_".data ++ sfx.data)))) = _
    rw [h2]
    simp [String.data_append, escape_backslashes, List.append_assoc]
  show (replace_in_file "_WORKSPACE_" (escape_backslashes (winPathString wp) true)
      (pfx ++ "_WORKSPACE_" ++ mid ++ "_WORKSPACEURI_" ++ sfx)).bind
      (fun c1 => replace_in_file "_WORKSPACEURI_" (workspaceUri wp) c1) = _
  rw [e1]
  show replace_in_file "_WORKSPACEURI_" (workspaceUri wp) _ = _
  rw [e2]

/-- Witness for C6: workspace `C:\ws` and a settings file holding both
tokens; the first token becomes the doubled-backslash path, the second
the percent-encoded file URI, the rest of the file is untouched. -/
theorem C6_phase5_workspace_templating_witness :
    phase5_workspace_tokens ⟨'C', ["ws"]⟩
        ("path: " ++ "_WORKSPACE_" ++ " and uri: " ++ "_WORKSPACEURI_" ++ " end") =
      some ("path: " ++ escape_backslashes (winPathString ⟨'C', ["ws"]⟩) ++
        " and uri: " ++ workspaceUri ⟨'C', ["ws"]⟩ ++ " end") ∧
    escape_backslashes (winPathString ⟨'C', ["ws"]⟩) = "C:\\\\ws" ∧
    workspaceUri ⟨'C', ["ws"]⟩ = "file%3A///C%3A/ws" := by
  refine ⟨?_, by decide, by decide⟩
  exact C6_phase5_workspace_templating ⟨'C', ["ws"]⟩ "path: " " and uri: " " end"
    (by decide) (by decide) (by decide) (by decide) (by decide)

end VSCode4z
